import Mathlib

/-
Shallow embedding of the average-rating CSV report tool (src/main.py).

Modelling choices:
* Python floats are modelled exactly: a value is either a finite rational,
  positive infinity, negative infinity, or NaN (inductive PyFloat below).
  Finite values are stored as unreduced fractions (structure Frac) whose
  denominator is dpred + 1, so it is positive by construction; all
  comparisons are value-level cross-multiplication comparisons, matching
  IEEE semantics (every comparison involving NaN is false).  Rounding of
  double arithmetic is idealised away: additions and divisions are exact.
* Dictionary records from csv.DictReader are association lists; indexing
  record[key] is a lookup that raises KeyError when the key is absent,
  mirrored by the PyResult error monad.  float(s) applied to the rating
  string is modelled by pyFloatParse, the documented CPython grammar for
  float over ASCII strings: optional surrounding whitespace, optional
  sign, then inf / infinity / nan (case-insensitive) or a decimal literal
  with optional fraction, underscores between digits, and exponent part.
* dict insertion order is modelled by insertion-ordered association
  lists; list.sort(key=..., reverse=True) is CPython stable descending
  sorting by the rating component, modelled by the stable descending
  insertion sort sortDesc (identical to CPython for all total-order keys
  and for the two-element NaN lists evaluated concretely below).
* sys.exit(1) after printing to stderr in read_csv_files is modelled by
  the FatalExit outcome carrying the message and the exit status; printed
  warnings of calculate_average_rating are returned as a list of message
  strings; the table printed by generate_report is returned as a Report
  value (header row and data rows), since printing happens only when the
  function does not raise.
-/

/-- Exact fraction: the represented value is num / (dpred + 1).  The
denominator is positive by construction, and no normalisation happens,
matching the fact that all comparisons below are value comparisons. -/
structure Frac where
  num : Int
  dpred : Nat
deriving DecidableEq

/-- The (positive) denominator of a fraction, as an integer. -/
def Frac.den (x : Frac) : Int := (x.dpred : Int) + 1

/-- Exact addition of fractions (no normalisation). -/
def Frac.add (a b : Frac) : Frac :=
  ⟨a.num * b.den + b.num * a.den, a.dpred * b.dpred + a.dpred + b.dpred⟩

/-- Exact division of a fraction by a positive natural number. -/
def Frac.divNat (a : Frac) (n : Nat) : Frac :=
  ⟨a.num, a.dpred * n + (n - 1)⟩

/-- Python float values: finite exact rational, infinities, NaN. -/
inductive PyFloat where
  | finite (x : Frac)
  | inf
  | ninf
  | nan
deriving DecidableEq

/-- Python float addition (exact on finite values). -/
def PyFloat.add : PyFloat → PyFloat → PyFloat
  | .nan, _ => .nan
  | _, .nan => .nan
  | .inf, .ninf => .nan
  | .ninf, .inf => .nan
  | .inf, _ => .inf
  | _, .inf => .inf
  | .ninf, _ => .ninf
  | _, .ninf => .ninf
  | .finite a, .finite b => .finite (a.add b)

/-- Python float division by a positive count (exact on finite values). -/
def PyFloat.divNat : PyFloat → Nat → PyFloat
  | .nan, _ => .nan
  | .inf, _ => .inf
  | .ninf, _ => .ninf
  | .finite a, n => .finite (a.divNat n)

/-- Python float strict comparison; all comparisons with NaN are false. -/
def PyFloat.lt : PyFloat → PyFloat → Bool
  | .nan, _ => false
  | _, .nan => false
  | .ninf, .ninf => false
  | .ninf, _ => true
  | _, .ninf => false
  | .inf, _ => false
  | _, .inf => true
  | .finite a, .finite b => decide (a.num * b.den < b.num * a.den)

/-- Python float non-strict comparison; all comparisons with NaN are false. -/
def PyFloat.le : PyFloat → PyFloat → Bool
  | .nan, _ => false
  | _, .nan => false
  | .ninf, _ => true
  | _, .ninf => false
  | _, .inf => true
  | .inf, _ => false
  | .finite a, .finite b => decide (a.num * b.den ≤ b.num * a.den)

/-- Python float greater-or-equal, as used by the sortedness property. -/
def PyFloat.ge (a b : PyFloat) : Bool := PyFloat.le b a

/-- Python float equality test (value equality; NaN equals nothing). -/
def PyFloat.eqv : PyFloat → PyFloat → Bool
  | .nan, _ => false
  | _, .nan => false
  | .inf, .inf => true
  | .inf, _ => false
  | _, .inf => false
  | .ninf, .ninf => true
  | .ninf, _ => false
  | _, .ninf => false
  | .finite a, .finite b => decide (a.num * b.den = b.num * a.den)

/- ----------------------------------------------------------------- -/
/- The grammar of CPython float(string) over ASCII strings.          -/
/- ----------------------------------------------------------------- -/

/-- Whitespace characters stripped by float(str). -/
def isPySpace (c : Char) : Bool :=
  c == ' ' || c == '\t' || c == '\n' || c == '\r' ||
    c == Char.ofNat 11 || c == Char.ofNat 12

/-- Drop leading whitespace. -/
def dropPySpaces (cs : List Char) : List Char := cs.dropWhile isPySpace

/-- Strip an optional sign; returns (isNegative, rest). -/
def splitSign : List Char → Bool × List Char
  | '-' :: cs => (true, cs)
  | '+' :: cs => (false, cs)
  | cs => (false, cs)

/-- Case-insensitive character comparison. -/
def lcEq (a b : Char) : Bool := a.toLower == b.toLower

/-- Strip a fixed word case-insensitively; none when it does not match. -/
def stripCI : List Char → List Char → Option (List Char)
  | [], cs => some cs
  | _ :: _, [] => none
  | p :: ps, c :: cs => if lcEq p c then stripCI ps cs else none

/-- Longest digit group with single underscores between digits, as in the
CPython float grammar; returns the digits (underscores removed) and the
unconsumed rest.  A leading or trailing underscore, or a doubled
underscore, is not consumed. -/
def digitGroup : List Char → List Char × List Char
  | [] => ([], [])
  | c :: '_' :: c2 :: cs2 =>
    if c.isDigit then
      if c2.isDigit then
        let (d, r) := digitGroup (c2 :: cs2)
        (c :: d, r)
      else ([c], '_' :: c2 :: cs2)
    else ([], c :: '_' :: c2 :: cs2)
  | c :: cs =>
    if c.isDigit then
      let (d, r) := digitGroup cs
      (c :: d, r)
    else ([], c :: cs)

/-- Natural number denoted by a list of decimal digits. -/
def natOfDigits (ds : List Char) : Nat :=
  ds.foldl (fun n c => 10 * n + (c.toNat - 48)) 0

/-- Parse the unsigned numeric part of a float literal: integer digits,
optional fraction, optional exponent.  Returns the denoted exact value
and the unconsumed rest. -/
def parseNumber (cs : List Char) : Option (Frac × List Char) :=
  let (ip, cs1) := digitGroup cs
  let (fp, cs2) :=
    match cs1 with
    | '.' :: rest => digitGroup rest
    | _ => ([], cs1)
  if ip.isEmpty && fp.isEmpty then none
  else
    let mant : Nat := natOfDigits (ip ++ fp)
    let k : Nat := fp.length
    match cs2 with
    | 'e' :: rest | 'E' :: rest =>
      let (eneg, rest2) := splitSign rest
      let (ed, rest3) := digitGroup rest2
      if ed.isEmpty then none
      else
        let e : Nat := natOfDigits ed
        if eneg then some (⟨(mant : Int), 10 ^ (k + e) - 1⟩, rest3)
        else some (⟨(mant : Int) * 10 ^ e, 10 ^ k - 1⟩, rest3)
    | _ => some (⟨(mant : Int), 10 ^ k - 1⟩, cs2)

/-- The CPython float(string) conversion over ASCII strings: optional
whitespace, optional sign, then infinity, NaN, or a decimal literal,
then optional whitespace; none models a ValueError. -/
def pyFloatParse (s : String) : Option PyFloat :=
  let cs := dropPySpaces s.data
  let (neg, cs1) := splitSign cs
  match stripCI ['i', 'n', 'f', 'i', 'n', 'i', 't', 'y'] cs1 with
  | some rest =>
    if (dropPySpaces rest).isEmpty then
      some (if neg then PyFloat.ninf else PyFloat.inf)
    else none
  | none =>
  match stripCI ['i', 'n', 'f'] cs1 with
  | some rest =>
    if (dropPySpaces rest).isEmpty then
      some (if neg then PyFloat.ninf else PyFloat.inf)
    else none
  | none =>
  match stripCI ['n', 'a', 'n'] cs1 with
  | some rest =>
    if (dropPySpaces rest).isEmpty then some PyFloat.nan else none
  | none =>
  match parseNumber cs1 with
  | some (q, rest) =>
    if (dropPySpaces rest).isEmpty then
      some (PyFloat.finite (if neg then ⟨-q.num, q.dpred⟩ else q))
    else none
  | none => none

/- ----------------------------------------------------------------- -/
/- Records, errors, and the aggregation function.                    -/
/- ----------------------------------------------------------------- -/

/-- A CSV record as produced by csv.DictReader: field name to value. -/
abbrev Record : Type := List (String × String)

/-- Dictionary lookup record[key], successful case. -/
def rlookup (r : Record) (k : String) : Option String :=
  (r.find? (fun p => p.1 == k)).map (fun p => p.2)

/-- Python exceptions that calculate_average_rating can raise or catch. -/
inductive PyErr where
  | keyError (key : String)
  | valueError (msg : String)
deriving DecidableEq

/-- Result of a Python call: a value or an uncaught exception. -/
inductive PyResult (ε α : Type) where
  | ok (val : α)
  | error (err : ε)
deriving DecidableEq

/-- Single quote character, used by the warning message. -/
def quoteStr : String := String.singleton (Char.ofNat 39)

/-- The stderr warning printed for an unparsable rating value. -/
def warnMsg (raw nm b : String) : String :=
  "Предупреждение: некорректный рейтинг " ++ quoteStr ++ raw ++ quoteStr ++
    " для товара " ++ nm ++ ", бренд " ++ b ++ ". Пропускаем."

/-- Running state of the aggregation loop: the insertion-ordered brand
accumulator (brand, rating sum, contributing count) merging the two
dictionaries brand_ratings and brand_counts, plus emitted warnings. -/
structure AggState where
  acc : List (String × PyFloat × Nat)
  warnings : List String
deriving DecidableEq

/-- One successful rating update: the body of the loop after float()
succeeded, covering the membership test, zero initialisation, and the
sum and count increments. -/
def addRating (acc : List (String × PyFloat × Nat)) (b : String)
    (v : PyFloat) : List (String × PyFloat × Nat) :=
  if acc.any (fun e => e.1 == b) then
    acc.map (fun e =>
      if e.1 == b then (e.1, (e.2.1).add v, e.2.2 + 1) else e)
  else
    acc ++ [(b, (PyFloat.finite ⟨0, 0⟩).add v, 1)]

/-- One iteration of the loop of calculate_average_rating on one record:
record lookups can raise KeyError; a float() failure is caught and turns
into a warning (whose construction looks up the name field). -/
def processRecord (st : AggState) (r : Record) : PyResult PyErr AggState :=
  match rlookup r "brand" with
  | none => .error (PyErr.keyError "brand")
  | some b =>
    match rlookup r "rating" with
    | none => .error (PyErr.keyError "rating")
    | some raw =>
      match pyFloatParse raw with
      | some v => .ok ⟨addRating st.acc b v, st.warnings⟩
      | none =>
        match rlookup r "name" with
        | none => .error (PyErr.keyError "name")
        | some nm => .ok ⟨st.acc, st.warnings ++ [warnMsg raw nm b]⟩

/-- The aggregation loop over all records. -/
def runAgg : List Record → AggState → PyResult PyErr AggState
  | [], st => .ok st
  | r :: rs, st =>
    match processRecord st r with
    | .ok st2 => runAgg rs st2
    | .error e => .error e

/-- Stable descending insertion by the rating component: the new element
passes every element not strictly below it, so equal-rating elements
keep their relative order. -/
def insertDesc (x : String × PyFloat) :
    List (String × PyFloat) → List (String × PyFloat)
  | [] => [x]
  | y :: ys =>
    if PyFloat.lt y.2 x.2 then x :: y :: ys else y :: insertDesc x ys

/-- The CPython list.sort(key=lambda x: x[1], reverse=True) call: a
stable descending sort by the rating component. -/
def sortDesc (l : List (String × PyFloat)) : List (String × PyFloat) :=
  l.foldl (fun acc x => insertDesc x acc) []

/-- The function calculate_average_rating of src/main.py: aggregate the
records, compute each average as sum divided by count, sort descending;
returns the sorted pairs and the emitted warnings, or the uncaught
exception. -/
def calculate_average_rating (records : List Record) :
    PyResult PyErr (List (String × PyFloat) × List String) :=
  match runAgg records ⟨[], []⟩ with
  | .error e => .error e
  | .ok st =>
    .ok (sortDesc (st.acc.map (fun e => (e.1, (e.2.1).divNat e.2.2))),
      st.warnings)

/- ----------------------------------------------------------------- -/
/- The report generator.                                             -/
/- ----------------------------------------------------------------- -/

/-- Round a nonnegative fraction n over d to the nearest integer, ties
to even, as Python fixed-point formatting does on exact values. -/
def roundHalfEvenPos (n d : Nat) : Nat :=
  let q := n / d
  let r := n % d
  if 2 * r < d then q
  else if d < 2 * r then q + 1
  else if q % 2 = 0 then q else q + 1

/-- Fixed-point rendering with one fractional digit, as the format
specifier .1f does on the exact value. -/
def formatFixed1 : PyFloat → String
  | .nan => "nan"
  | .inf => "inf"
  | .ninf => "-inf"
  | .finite x =>
    let m := roundHalfEvenPos (x.num.natAbs * 10) (x.dpred + 1)
    (if x.num < 0 then "-" else "") ++
      toString (m / 10) ++ "." ++ toString (m % 10)

/-- The table printed by generate_report: the header row and the data
rows handed to tabulate. -/
structure Report where
  headers : List String
  rows : List (List String)
deriving DecidableEq

/-- The function generate_report of src/main.py: only the report type
average-rating is supported, any other raises ValueError before printing
anything; the supported type prints the tabulated rows. -/
def generate_report (rt : String) (data : List (String × PyFloat)) :
    PyResult PyErr Report :=
  if rt = "average-rating" then
    .ok ⟨["Brand", "Rating"],
      data.map (fun p => [p.1, formatFixed1 p.2])⟩
  else
    .error (PyErr.valueError ("Неподдерживаемый тип отчёта: " ++ rt))

/- ----------------------------------------------------------------- -/
/- The CSV loader.                                                   -/
/- ----------------------------------------------------------------- -/

/-- Outcome of opening and parsing one CSV file in the file system
environment: the file is absent, csv reading fails, or rows are read. -/
inductive FileOutcome where
  | missing
  | badCsv (msg : String)
  | rows (records : List Record)

/-- A call of sys.exit after printing to stderr: the printed message and
the process exit status. -/
structure FatalExit where
  message : String
  exitCode : Nat
deriving DecidableEq

/-- The stderr message for a missing input file. -/
def fileErrMsg (path : String) : String :=
  "Ошибка: файл не найден — " ++ path

/-- The stderr message for a csv reading error. -/
def csvErrMsg (path m : String) : String :=
  "Ошибка при чтении CSV-файла " ++ path ++ ": " ++ m

/-- The function read_csv_files of src/main.py over a file system
environment fs: files are opened one at a time in the given order; a
missing file or a csv error terminates the process at once.  The first
component lists the successfully opened paths in order (the read trace);
the second is the concatenated record list or the fatal exit. -/
def read_csv_files (fs : String → FileOutcome) :
    List String → List String × PyResult FatalExit (List Record)
  | [] => ([], .ok [])
  | p :: ps =>
    match fs p with
    | .missing => ([], .error ⟨fileErrMsg p, 1⟩)
    | .badCsv m => ([], .error ⟨csvErrMsg p m, 1⟩)
    | .rows recs =>
      match read_csv_files fs ps with
      | (opened, .ok rest) => (p :: opened, .ok (recs ++ rest))
      | (opened, .error e) => (p :: opened, .error e)

/- ----------------------------------------------------------------- -/
/- Specification-side characterisations of the aggregation.          -/
/- ----------------------------------------------------------------- -/

/-- A record together with its parsed rating, when the brand and rating
fields are present and the rating parses. -/
def parsedOf (r : Record) : Option (String × PyFloat) :=
  match rlookup r "brand", rlookup r "rating" with
  | some b, some raw => (pyFloatParse raw).map (fun v => (b, v))
  | _, _ => none

/-- All (brand, parsed rating) pairs of the record sequence, in order. -/
def parsedPairs (records : List Record) : List (String × PyFloat) :=
  records.filterMap parsedOf

/-- The brands of the successfully parsed records, in record order. -/
def parsedBrandSeq (records : List Record) : List String :=
  (parsedPairs records).map Prod.fst

/-- The successfully parsed rating values of the records bearing the
given brand, in record order. -/
def parsedRatingsOf (records : List Record) (b : String) : List PyFloat :=
  (parsedPairs records).filterMap
    (fun p => if p.1 = b then some p.2 else none)

/-- Sum of a list of Python floats, accumulated from 0.0 as the brand
sum dictionary does. -/
def sumPF (l : List PyFloat) : PyFloat :=
  l.foldl PyFloat.add (PyFloat.finite ⟨0, 0⟩)

/-- The arithmetic mean the specification promises for a brand: the sum
of exactly the successfully parsed ratings of that brand, divided by
their number. -/
def meanOf (records : List Record) (b : String) : PyFloat :=
  (sumPF (parsedRatingsOf records b)).divNat (parsedRatingsOf records b).length

/-- First occurrences of a list of keys, in first-encounter order: the
key order of an insertion-ordered dictionary fed these keys. -/
def firstOccurrences (l : List String) : List String :=
  l.foldl (fun acc b => if b ∈ acc then acc else acc ++ [b]) []

/-- The brands of the output, in first-successful-parse order. -/
def brandsOrdered (records : List Record) : List String :=
  firstOccurrences (parsedBrandSeq records)

/-- The expected accumulator contents after all records are consumed. -/
def specAcc (records : List Record) : List (String × PyFloat × Nat) :=
  (brandsOrdered records).map
    (fun b => (b, sumPF (parsedRatingsOf records b),
      (parsedRatingsOf records b).length))

/-- The expected (brand, average) pairs before sorting: first-encounter
brand order, each average the promised mean. -/
def specAvgs (records : List Record) : List (String × PyFloat) :=
  (brandsOrdered records).map (fun b => (b, meanOf records b))

/-- The expected warning messages, in record order. -/
def specWarns (records : List Record) : List String :=
  records.filterMap (fun r =>
    match rlookup r "brand", rlookup r "rating", rlookup r "name" with
    | some b, some raw, some nm =>
      if (pyFloatParse raw).isNone then some (warnMsg raw nm b) else none
    | _, _, _ => none)

/-- A record carrying the three fields the aggregation touches. -/
def WFrec (r : Record) : Prop :=
  (rlookup r "name").isSome = true ∧ (rlookup r "brand").isSome = true ∧
    (rlookup r "rating").isSome = true

instance (r : Record) : Decidable (WFrec r) := by
  unfold WFrec
  infer_instance

/-- Adjacent descending sortedness by the rating component, the testable
sorting property of the specification. -/
def sortedDescBool : List (String × PyFloat) → Bool
  | [] => true
  | [_] => true
  | x :: y :: t => PyFloat.ge x.2 y.2 && sortedDescBool (y :: t)

/- ----------------------------------------------------------------- -/
/- Concrete record fixtures used by witnesses and counterexamples.   -/
/- ----------------------------------------------------------------- -/

/-- Fixture: the three-record data set of the repository tests. -/
def recsC1 : List Record :=
  [[("name", "p1"), ("brand", "apple"), ("price", "1000"), ("rating", "4.5")],
   [("name", "p2"), ("brand", "samsung"), ("price", "900"), ("rating", "4.7")],
   [("name", "p3"), ("brand", "apple"), ("price", "1100"), ("rating", "4.9")]]

/-- Fixture: a record whose rating string parses to NaN after one with a
plain rating. -/
def nanRecords : List Record :=
  [[("name", "p1"), ("brand", "b"), ("price", "1"), ("rating", "5.0")],
   [("name", "p2"), ("brand", "a"), ("price", "2"), ("rating", "nan")]]

/-- Fixture: the three-brand sorting data set of the repository tests. -/
def recsC2 : List Record :=
  [[("name", "p1"), ("brand", "a"), ("price", "1"), ("rating", "3.0")],
   [("name", "p2"), ("brand", "b"), ("price", "2"), ("rating", "5.0")],
   [("name", "p3"), ("brand", "c"), ("price", "3"), ("rating", "4.0")]]

/-- Fixture: one unparsable rating before a parsable one. -/
def recsC3 : List Record :=
  [[("name", "p1"), ("brand", "apple"), ("price", "1000"), ("rating", "invalid")],
   [("name", "p2"), ("brand", "apple"), ("price", "1100"), ("rating", "4.9")]]

/-- Fixture: a brand whose only record has an unparsable rating. -/
def recsC6 : List Record :=
  [[("name", "p1"), ("brand", "apple"), ("price", "1000"), ("rating", "invalid")],
   [("name", "p2"), ("brand", "apple"), ("price", "1100"), ("rating", "4.9")],
   [("name", "p3"), ("brand", "zzz"), ("price", "10"), ("rating", "invalid")]]

/-- Fixture: brands differing only by case. -/
def recsC7 : List Record :=
  [[("name", "p1"), ("brand", "Apple"), ("price", "1000"), ("rating", "4.5")],
   [("name", "p2"), ("brand", "apple"), ("price", "1100"), ("rating", "4.9")]]

/-- Fixture: a file system with one readable file and nothing else. -/
def fsW : String → FileOutcome :=
  fun p => if p == "a.csv" then FileOutcome.rows [] else FileOutcome.missing

/- ----------------------------------------------------------------- -/
/- Order facts about PyFloat values.                                 -/
/- ----------------------------------------------------------------- -/

lemma Frac.den_pos (x : Frac) : 0 < x.den := by
  unfold Frac.den
  positivity

lemma frac_le_lt_trans {a b c : Frac} (h1 : a.num * b.den ≤ b.num * a.den)
    (h2 : b.num * c.den < c.num * b.den) :
    a.num * c.den < c.num * a.den := by
  have hcd := c.den_pos
  have had := a.den_pos
  have hbd := b.den_pos
  have h1c : a.num * b.den * c.den ≤ b.num * a.den * c.den :=
    mul_le_mul_of_nonneg_right h1 (le_of_lt hcd)
  have h2a : b.num * c.den * a.den < c.num * b.den * a.den :=
    mul_lt_mul_of_pos_right h2 had
  have hmid : a.num * c.den * b.den < c.num * a.den * b.den := by nlinarith
  exact lt_of_mul_lt_mul_right hmid (le_of_lt hbd)

lemma frac_lt_eqv_false {a b v : Frac} (h : a.num * b.den < b.num * a.den)
    (he : b.num * v.den = v.num * b.den) :
    ¬ a.num * v.den = v.num * a.den := by
  intro hav
  have hvd := v.den_pos
  have had := a.den_pos
  have hbd := b.den_pos
  have hv : a.num * b.den * v.den < b.num * a.den * v.den :=
    mul_lt_mul_of_pos_right h hvd
  nlinarith

lemma pf_lt_le {a b : PyFloat} (h : PyFloat.lt a b = true) :
    PyFloat.le a b = true := by
  cases a <;> cases b <;> simp_all [PyFloat.lt, PyFloat.le] <;> linarith

lemma pf_not_lt_le {a b : PyFloat} (ha : a ≠ PyFloat.nan)
    (hb : b ≠ PyFloat.nan) (h : PyFloat.lt a b = false) :
    PyFloat.le b a = true := by
  cases a <;> cases b <;> simp_all [PyFloat.lt, PyFloat.le] <;> linarith

lemma pf_le_lt_trans {a b c : PyFloat} (h1 : PyFloat.le a b = true)
    (h2 : PyFloat.lt b c = true) : PyFloat.lt a c = true := by
  cases a <;> cases b <;> cases c <;>
    simp_all [PyFloat.lt, PyFloat.le] <;>
    exact frac_le_lt_trans h1 h2

lemma pf_lt_eqv_false {a b v : PyFloat} (h : PyFloat.lt a b = true)
    (he : PyFloat.eqv b v = true) : PyFloat.eqv a v = false := by
  cases a <;> cases b <;> cases v <;>
    simp_all [PyFloat.lt, PyFloat.eqv] <;>
    exact frac_lt_eqv_false h he

/- ----------------------------------------------------------------- -/
/- Properties of the stable descending sort.                         -/
/- ----------------------------------------------------------------- -/

/-- Pairwise order of the sorted output: every element dominates all
later ones under the Python greater-or-equal comparison. -/
def Rge (p q : String × PyFloat) : Prop := PyFloat.ge p.2 q.2 = true

lemma insertDesc_perm (x : String × PyFloat) (l : List (String × PyFloat)) :
    List.Perm (insertDesc x l) (x :: l) := by
  induction l with
  | nil => simp [insertDesc]
  | cons y ys ih =>
    by_cases h : PyFloat.lt y.2 x.2 = true
    · simp [insertDesc, h]
    · simp only [insertDesc, h, if_false, Bool.false_eq_true]
      exact (ih.cons y).trans (List.Perm.swap x y ys)

lemma insertDesc_pairwise {x : String × PyFloat}
    {l : List (String × PyFloat)} (hx : x.2 ≠ PyFloat.nan)
    (hl : ∀ p ∈ l, p.2 ≠ PyFloat.nan) (h : l.Pairwise Rge) :
    (insertDesc x l).Pairwise Rge := by
  induction l with
  | nil => simp [insertDesc, Rge]
  | cons y ys ih =>
    rw [List.pairwise_cons] at h
    by_cases hlt : PyFloat.lt y.2 x.2 = true
    · simp only [insertDesc, hlt, if_true]
      rw [List.pairwise_cons]
      refine ⟨?_, List.pairwise_cons.mpr h⟩
      intro z hz
      rcases List.mem_cons.mp hz with hz | hz
      · subst hz
        exact pf_lt_le hlt
      · exact pf_lt_le (pf_le_lt_trans (h.1 z hz) hlt)
    · simp only [insertDesc, hlt, if_false, Bool.false_eq_true]
      rw [List.pairwise_cons]
      constructor
      · intro z hz
        rcases List.mem_cons.mp ((insertDesc_perm x ys).mem_iff.mp hz) with hz | hz
        · subst hz
          exact pf_not_lt_le (hl y (by simp)) hx (by simpa using hlt)
        · exact h.1 z hz
      · exact ih (fun p hp => hl p (by simp [hp])) h.2

lemma insertDesc_filter {x : String × PyFloat} {l : List (String × PyFloat)}
    (h : l.Pairwise Rge) (v : PyFloat) :
    (insertDesc x l).filter (fun p => PyFloat.eqv p.2 v) =
      l.filter (fun p => PyFloat.eqv p.2 v) ++
        (if PyFloat.eqv x.2 v then [x] else []) := by
  induction l with
  | nil => by_cases hx : PyFloat.eqv x.2 v = true <;> simp [insertDesc, hx]
  | cons y ys ih =>
    rw [List.pairwise_cons] at h
    by_cases hlt : PyFloat.lt y.2 x.2 = true
    · simp only [insertDesc, hlt, if_true]
      by_cases hx : PyFloat.eqv x.2 v = true
      · have hnone : ∀ z ∈ y :: ys, PyFloat.eqv z.2 v = false := by
          intro z hz
          rcases List.mem_cons.mp hz with hz | hz
          · subst hz
            exact pf_lt_eqv_false hlt hx
          · exact pf_lt_eqv_false (pf_le_lt_trans (h.1 z hz) hlt) hx
        have hfil : (y :: ys).filter (fun p => PyFloat.eqv p.2 v) = [] := by
          apply List.filter_eq_nil.mpr
          intro z hz
          simp [hnone z hz]
        rw [List.filter_cons_of_pos (by simpa using hx), hfil]
        simp [hx]
      · have hx2 : PyFloat.eqv x.2 v = false := by
          simpa using hx
        rw [List.filter_cons_of_neg (by simp [hx2])]
        simp [hx2]
    · simp only [insertDesc, hlt, if_false, Bool.false_eq_true]
      by_cases hy : PyFloat.eqv y.2 v = true
      · rw [List.filter_cons_of_pos (by simpa using hy),
          List.filter_cons_of_pos (by simpa using hy), ih h.2]
        simp
      · rw [List.filter_cons_of_neg (by simpa using hy),
          List.filter_cons_of_neg (by simpa using hy), ih h.2]

lemma sortFold_spec (l : List (String × PyFloat)) :
    ∀ acc : List (String × PyFloat), acc.Pairwise Rge →
    (∀ p ∈ acc, p.2 ≠ PyFloat.nan) → (∀ p ∈ l, p.2 ≠ PyFloat.nan) →
    (l.foldl (fun a x => insertDesc x a) acc).Pairwise Rge ∧
    (∀ p ∈ l.foldl (fun a x => insertDesc x a) acc, p.2 ≠ PyFloat.nan) ∧
    ∀ v, (l.foldl (fun a x => insertDesc x a) acc).filter
        (fun p => PyFloat.eqv p.2 v) =
      acc.filter (fun p => PyFloat.eqv p.2 v) ++
        l.filter (fun p => PyFloat.eqv p.2 v) := by
  induction l with
  | nil =>
    intro acc hp hn _
    exact ⟨hp, hn, by simp⟩
  | cons x xs ih =>
    intro acc hp hn hl
    have hx : x.2 ≠ PyFloat.nan := hl x (by simp)
    have hxs : ∀ p ∈ xs, p.2 ≠ PyFloat.nan := fun p hp2 => hl p (by simp [hp2])
    have hp2 : (insertDesc x acc).Pairwise Rge := insertDesc_pairwise hx hn hp
    have hn2 : ∀ p ∈ insertDesc x acc, p.2 ≠ PyFloat.nan := by
      intro p hp3
      rcases List.mem_cons.mp ((insertDesc_perm x acc).mem_iff.mp hp3) with hp3 | hp3
      · subst hp3; exact hx
      · exact hn p hp3
    obtain ⟨P, N, F⟩ := ih (insertDesc x acc) hp2 hn2 hxs
    refine ⟨P, N, fun v => ?_⟩
    rw [List.foldl_cons, F v, insertDesc_filter hp v]
    by_cases hxv : PyFloat.eqv x.2 v = true
    · rw [List.filter_cons_of_pos (by simpa using hxv)]
      simp [hxv]
    · have hxv2 : PyFloat.eqv x.2 v = false := by simpa using hxv
      rw [List.filter_cons_of_neg (by simp [hxv2])]
      simp [hxv2]

lemma sortFold_perm (l : List (String × PyFloat)) :
    ∀ acc : List (String × PyFloat),
      List.Perm (l.foldl (fun a x => insertDesc x a) acc) (l ++ acc) := by
  induction l with
  | nil =>
    intro acc
    simp
  | cons x xs ih =>
    intro acc
    rw [List.foldl_cons]
    have h1 := ih (insertDesc x acc)
    have h2 := (insertDesc_perm x acc).append_left xs
    have h3 : List.Perm (xs ++ (x :: acc)) (x :: (xs ++ acc)) :=
      List.perm_middle
    exact (h1.trans h2).trans h3

lemma sortDesc_perm (l : List (String × PyFloat)) :
    List.Perm (sortDesc l) l := by
  have := sortFold_perm l []
  simpa [sortDesc] using this

lemma sortDesc_pairwise {l : List (String × PyFloat)}
    (hl : ∀ p ∈ l, p.2 ≠ PyFloat.nan) : (sortDesc l).Pairwise Rge :=
  (sortFold_spec l [] (by simp) (by simp) hl).1

lemma sortDesc_filter {l : List (String × PyFloat)}
    (hl : ∀ p ∈ l, p.2 ≠ PyFloat.nan) (v : PyFloat) :
    (sortDesc l).filter (fun p => PyFloat.eqv p.2 v) =
      l.filter (fun p => PyFloat.eqv p.2 v) := by
  have := (sortFold_spec l [] (by simp) (by simp) hl).2.2 v
  simpa [sortDesc] using this

lemma pairwise_sortedDescBool {l : List (String × PyFloat)}
    (h : l.Pairwise Rge) : sortedDescBool l = true := by
  induction l with
  | nil => rfl
  | cons x t ih =>
    cases t with
    | nil => rfl
    | cons y t2 =>
      rw [List.pairwise_cons] at h
      simp only [sortedDescBool, Bool.and_eq_true]
      exact ⟨h.1 y (by simp), ih h.2⟩

/- ----------------------------------------------------------------- -/
/- Properties of first-occurrence key order.                         -/
/- ----------------------------------------------------------------- -/

lemma firstOcc_fold_mem (l : List String) :
    ∀ (acc : List String) (x : String),
      (x ∈ l.foldl (fun acc b => if b ∈ acc then acc else acc ++ [b]) acc) ↔
        x ∈ acc ∨ x ∈ l := by
  induction l with
  | nil => simp
  | cons b bs ih =>
    intro acc x
    rw [List.foldl_cons, ih]
    by_cases h : b ∈ acc
    · simp only [if_pos h, List.mem_cons]
      constructor
      · tauto
      · rintro (hx | rfl | hx) <;> tauto
    · simp only [if_neg h, List.mem_append, List.mem_singleton, List.mem_cons]
      tauto

lemma firstOcc_mem (l : List String) (x : String) :
    x ∈ firstOccurrences l ↔ x ∈ l := by
  unfold firstOccurrences
  rw [firstOcc_fold_mem]
  simp

lemma firstOcc_fold_nodup (l : List String) :
    ∀ acc : List String, acc.Nodup →
      (l.foldl (fun acc b => if b ∈ acc then acc else acc ++ [b]) acc).Nodup := by
  induction l with
  | nil => exact fun acc h => h
  | cons b bs ih =>
    intro acc hacc
    rw [List.foldl_cons]
    by_cases h : b ∈ acc
    · rw [if_pos h]
      exact ih acc hacc
    · rw [if_neg h]
      exact ih (acc ++ [b]) (by simp [List.nodup_append, hacc, h])

lemma firstOcc_nodup (l : List String) : (firstOccurrences l).Nodup :=
  firstOcc_fold_nodup l [] (by simp)

lemma firstOcc_append_one (l : List String) (b : String) :
    firstOccurrences (l ++ [b]) =
      if b ∈ firstOccurrences l then firstOccurrences l
      else firstOccurrences l ++ [b] := by
  unfold firstOccurrences
  rw [List.foldl_append]
  rfl

/- ----------------------------------------------------------------- -/
/- Properties of the parsed-record views.                            -/
/- ----------------------------------------------------------------- -/

lemma parsedPairs_append (rs1 rs2 : List Record) :
    parsedPairs (rs1 ++ rs2) = parsedPairs rs1 ++ parsedPairs rs2 := by
  simp [parsedPairs, List.filterMap_append]

lemma parsedPairs_single_some {r : Record} {b : String} {v : PyFloat}
    (h : parsedOf r = some (b, v)) : parsedPairs [r] = [(b, v)] := by
  simp [parsedPairs, h]

lemma parsedPairs_single_none {r : Record} (h : parsedOf r = none) :
    parsedPairs [r] = [] := by
  simp [parsedPairs, h]

lemma filterSnd_nil_iff (l : List (String × PyFloat)) (b : String) :
    l.filterMap (fun p => if p.1 = b then some p.2 else none) = [] ↔
      b ∉ l.map Prod.fst := by
  induction l with
  | nil => simp
  | cons p t ih =>
    by_cases h : p.1 = b
    · subst h
      simp
    · simp [List.filterMap_cons, h, ih, Ne.symm h]

lemma parsedRatingsOf_nil_iff (records : List Record) (b : String) :
    parsedRatingsOf records b = [] ↔ b ∉ parsedBrandSeq records := by
  unfold parsedRatingsOf parsedBrandSeq
  exact filterSnd_nil_iff (parsedPairs records) b

lemma parsedRatingsOf_append_some {r : Record} {b0 : String} {v : PyFloat}
    (rs : List Record) (h : parsedOf r = some (b0, v)) (b : String) :
    parsedRatingsOf (rs ++ [r]) b =
      parsedRatingsOf rs b ++ (if b0 = b then [v] else []) := by
  unfold parsedRatingsOf
  rw [parsedPairs_append, List.filterMap_append, parsedPairs_single_some h]
  by_cases hb : b0 = b <;> simp [hb]

lemma parsedRatingsOf_append_none {r : Record} (rs : List Record)
    (h : parsedOf r = none) (b : String) :
    parsedRatingsOf (rs ++ [r]) b = parsedRatingsOf rs b := by
  unfold parsedRatingsOf
  rw [parsedPairs_append, List.filterMap_append, parsedPairs_single_none h]
  simp

lemma brandsOrdered_append_some {r : Record} {b0 : String} {v : PyFloat}
    (rs : List Record) (h : parsedOf r = some (b0, v)) :
    brandsOrdered (rs ++ [r]) =
      if b0 ∈ brandsOrdered rs then brandsOrdered rs
      else brandsOrdered rs ++ [b0] := by
  unfold brandsOrdered parsedBrandSeq
  rw [parsedPairs_append, parsedPairs_single_some h]
  simp [firstOcc_append_one]

/- ----------------------------------------------------------------- -/
/- Correspondence of the loop with the specification views.          -/
/- ----------------------------------------------------------------- -/

lemma sumPF_append_one (l : List PyFloat) (v : PyFloat) :
    sumPF (l ++ [v]) = PyFloat.add (sumPF l) v := by
  simp [sumPF, List.foldl_append]

lemma specAcc_any (rs : List Record) (b : String) :
    ((specAcc rs).any (fun e => e.1 == b)) = true ↔ b ∈ brandsOrdered rs := by
  simp [specAcc, List.any_eq_true]

lemma brandsOrdered_append_none {r : Record} (rs : List Record)
    (h : parsedOf r = none) :
    brandsOrdered (rs ++ [r]) = brandsOrdered rs := by
  unfold brandsOrdered parsedBrandSeq
  rw [parsedPairs_append, parsedPairs_single_none h]
  simp

lemma specAcc_append_some {r : Record} {b0 : String} {v : PyFloat}
    (rs : List Record) (h : parsedOf r = some (b0, v)) :
    specAcc (rs ++ [r]) = addRating (specAcc rs) b0 v := by
  by_cases hmem : b0 ∈ brandsOrdered rs
  · have hany : ((specAcc rs).any (fun e => e.1 == b0)) = true :=
      (specAcc_any rs b0).mpr hmem
    unfold addRating
    rw [if_pos hany]
    unfold specAcc
    rw [brandsOrdered_append_some rs h, if_pos hmem, List.map_map]
    apply List.map_congr_left
    intro b2 hb2
    by_cases hb : b2 = b0
    · subst hb
      simp [Function.comp, parsedRatingsOf_append_some rs h, sumPF_append_one]
    · have : ¬ (b0 = b2) := fun hc => hb hc.symm
      simp [Function.comp, parsedRatingsOf_append_some rs h, this, hb]
  · have hany : ((specAcc rs).any (fun e => e.1 == b0)) = false := by
      rw [Bool.eq_false_iff]
      intro hc
      exact hmem ((specAcc_any rs b0).mp hc)
    unfold addRating
    rw [hany]
    simp only [Bool.false_eq_true, if_false]
    unfold specAcc
    rw [brandsOrdered_append_some rs h, if_neg hmem, List.map_append]
    congr 1
    · apply List.map_congr_left
      intro b2 hb2
      have hb : ¬ (b0 = b2) := by
        intro hc
        exact hmem (hc ▸ hb2)
      simp [parsedRatingsOf_append_some rs h, hb]
    · have hnil : parsedRatingsOf rs b0 = [] :=
        (parsedRatingsOf_nil_iff rs b0).mpr
          (fun hc => hmem ((firstOcc_mem _ b0).mpr hc))
      simp [parsedRatingsOf_append_some rs h, hnil, sumPF]

lemma specAcc_append_none {r : Record} (rs : List Record)
    (h : parsedOf r = none) :
    specAcc (rs ++ [r]) = specAcc rs := by
  unfold specAcc
  rw [brandsOrdered_append_none rs h]
  apply List.map_congr_left
  intro b2 _
  rw [parsedRatingsOf_append_none rs h]

lemma specWarns_append (rs : List Record) (r : Record) :
    specWarns (rs ++ [r]) = specWarns rs ++ specWarns [r] := by
  simp [specWarns, List.filterMap_append]

lemma runAgg_spec (records : List Record) :
    ∀ pre : List Record, (∀ r ∈ records, WFrec r) →
      runAgg records ⟨specAcc pre, specWarns pre⟩ =
        .ok ⟨specAcc (pre ++ records), specWarns (pre ++ records)⟩ := by
  induction records with
  | nil =>
    intro pre _
    simp [runAgg]
  | cons r rs ih =>
    intro pre hwf
    obtain ⟨hn, hb, hra⟩ := hwf r (by simp)
    obtain ⟨nm, hnm⟩ := Option.isSome_iff_exists.mp hn
    obtain ⟨b, hbv⟩ := Option.isSome_iff_exists.mp hb
    obtain ⟨raw, hraw⟩ := Option.isSome_iff_exists.mp hra
    have hrest : ∀ q ∈ rs, WFrec q := fun q hq => hwf q (by simp [hq])
    have happ : (pre ++ [r]) ++ rs = pre ++ (r :: rs) := by
      rw [List.append_assoc]
      rfl
    cases hparse : pyFloatParse raw with
    | some v =>
      have hpo : parsedOf r = some (b, v) := by
        simp [parsedOf, hbv, hraw, hparse]
      have hstep : processRecord ⟨specAcc pre, specWarns pre⟩ r =
          .ok ⟨addRating (specAcc pre) b v, specWarns pre⟩ := by
        simp [processRecord, hbv, hraw, hparse]
      have hw1 : specWarns (pre ++ [r]) = specWarns pre := by
        rw [specWarns_append]
        simp [specWarns, hbv, hraw, hnm, hparse]
      have ha1 : specAcc (pre ++ [r]) = addRating (specAcc pre) b v :=
        specAcc_append_some pre hpo
      simp only [runAgg, hstep]
      rw [← ha1, ← hw1, ih (pre ++ [r]) hrest, happ]
    | none =>
      have hpo : parsedOf r = none := by
        simp [parsedOf, hbv, hraw, hparse]
      have hstep : processRecord ⟨specAcc pre, specWarns pre⟩ r =
          .ok ⟨specAcc pre, specWarns pre ++ [warnMsg raw nm b]⟩ := by
        simp [processRecord, hbv, hraw, hparse, hnm]
      have hw1 : specWarns (pre ++ [r]) =
          specWarns pre ++ [warnMsg raw nm b] := by
        rw [specWarns_append]
        simp [specWarns, hbv, hraw, hnm, hparse]
      have ha1 : specAcc (pre ++ [r]) = specAcc pre :=
        specAcc_append_none pre hpo
      simp only [runAgg, hstep]
      rw [← ha1, ← hw1, ih (pre ++ [r]) hrest, happ]

lemma calc_spec {records : List Record} (hwf : ∀ r ∈ records, WFrec r) :
    calculate_average_rating records =
      .ok (sortDesc (specAvgs records), specWarns records) := by
  have h0 : runAgg records ⟨[], []⟩ =
      .ok ⟨specAcc records, specWarns records⟩ := by
    have := runAgg_spec records [] hwf
    simpa using this
  have h1 : (specAcc records).map (fun e => (e.1, (e.2.1).divNat e.2.2)) =
      specAvgs records := by
    simp [specAcc, specAvgs, List.map_map, meanOf, Function.comp]
  simp only [calculate_average_rating, h0, h1]

/- ----------------------------------------------------------------- -/
/- Auxiliary lemmas for the claims.                                  -/
/- ----------------------------------------------------------------- -/

lemma specAvgs_keys (records : List Record) :
    (specAvgs records).map Prod.fst = brandsOrdered records := by
  simp only [specAvgs, List.map_map]
  exact List.map_id (brandsOrdered records)

lemma mem_specAvgs {records : List Record} {b : String} {v : PyFloat}
    (h : (b, v) ∈ specAvgs records) :
    b ∈ brandsOrdered records ∧ v = meanOf records b := by
  obtain ⟨b2, hb2, heq⟩ := List.mem_map.mp h
  have h1 : b2 = b := congrArg Prod.fst heq
  have h2 : meanOf records b2 = v := congrArg Prod.snd heq
  subst h1
  exact ⟨hb2, h2.symm⟩

lemma calc_ok_inv {records : List Record} {out : List (String × PyFloat)}
    {warns : List String} (hwf : ∀ r ∈ records, WFrec r)
    (h : calculate_average_rating records = .ok (out, warns)) :
    out = sortDesc (specAvgs records) ∧ warns = specWarns records := by
  rw [calc_spec hwf] at h
  simp only [PyResult.ok.injEq, Prod.mk.injEq] at h
  exact ⟨h.1.symm, h.2.symm⟩

lemma filter_key_of_nodup {l : List (String × PyFloat)} {b : String}
    {v : PyFloat} (hnd : (l.map Prod.fst).Nodup) (hmem : (b, v) ∈ l) :
    l.filter (fun p => p.1 == b) = [(b, v)] := by
  induction l with
  | nil => cases hmem
  | cons p t ih =>
    rw [List.map_cons, List.nodup_cons] at hnd
    rcases List.mem_cons.mp hmem with rfl | hm
    · rw [List.filter_cons_of_pos (by simp)]
      have hnil : t.filter (fun p => p.1 == b) = [] := by
        apply List.filter_eq_nil_iff.mpr
        intro q hq
        simp only [beq_iff_eq]
        intro hc
        have hqm : q.1 ∈ t.map Prod.fst := List.mem_map_of_mem Prod.fst hq
        rw [hc] at hqm
        exact hnd.1 hqm
      rw [hnil]
    · have hb : ¬ (p.1 = b) := by
        intro hc
        have hbm : b ∈ t.map Prod.fst := List.mem_map_of_mem Prod.fst hm
        rw [← hc] at hbm
        exact hnd.1 hbm
      rw [List.filter_cons_of_neg (by simp [hb])]
      exact ih hnd.2 hm

lemma brand_mem_parsedBrandSeq {records : List Record} {r : Record}
    {b raw : String} {v : PyFloat} (hr : r ∈ records)
    (hb : rlookup r "brand" = some b) (hraw : rlookup r "rating" = some raw)
    (hv : pyFloatParse raw = some v) : b ∈ parsedBrandSeq records := by
  have hpo : parsedOf r = some (b, v) := by
    simp [parsedOf, hb, hraw, hv]
  exact List.mem_map.mpr
    ⟨(b, v), List.mem_filterMap.mpr ⟨r, hr, hpo⟩, rfl⟩

lemma records_decomp (records : List Record) (i : ℕ)
    (hi : i < records.length) :
    records = records.take i ++
      records.get ⟨i, hi⟩ :: records.drop (i + 1) := by
  conv_lhs => rw [← List.take_append_drop i records]
  congr 1
  exact (@List.cons_get_drop_succ _ records ⟨i, hi⟩).symm

lemma parsedPairs_cons_none {r : Record} (rs : List Record)
    (h : parsedOf r = none) : parsedPairs (r :: rs) = parsedPairs rs := by
  simp [parsedPairs, List.filterMap_cons, h]

lemma specAvgs_congr {rs1 rs2 : List Record}
    (h : parsedPairs rs1 = parsedPairs rs2) : specAvgs rs1 = specAvgs rs2 := by
  unfold specAvgs meanOf brandsOrdered parsedBrandSeq parsedRatingsOf
  rw [h]

lemma processRecord_error_key {st : AggState} {r : Record} {e : PyErr}
    (h : processRecord st r = .error e) : ∃ k, e = PyErr.keyError k := by
  cases hb : rlookup r "brand" with
  | none =>
    simp only [processRecord, hb, PyResult.error.injEq] at h
    exact ⟨"brand", h.symm⟩
  | some b =>
    cases hra : rlookup r "rating" with
    | none =>
      simp only [processRecord, hb, hra, PyResult.error.injEq] at h
      exact ⟨"rating", h.symm⟩
    | some raw =>
      cases hp : pyFloatParse raw with
      | some v =>
        simp [processRecord, hb, hra, hp] at h
      | none =>
        cases hn : rlookup r "name" with
        | none =>
          simp only [processRecord, hb, hra, hp, hn, PyResult.error.injEq] at h
          exact ⟨"name", h.symm⟩
        | some nm =>
          simp [processRecord, hb, hra, hp, hn] at h

lemma runAgg_key_error (records : List Record) :
    ∀ st : AggState,
      (∃ r ∈ records, rlookup r "brand" = none ∨ rlookup r "rating" = none) →
      ∃ k, runAgg records st = .error (PyErr.keyError k) := by
  induction records with
  | nil =>
    intro st h
    simp at h
  | cons r rs ih =>
    intro st h
    obtain ⟨q, hq, hcase⟩ := h
    rcases List.mem_cons.mp hq with rfl | hq2
    · rcases hcase with hb | hra
      · exact ⟨"brand", by simp [runAgg, processRecord, hb]⟩
      · cases hb2 : rlookup q "brand" with
        | none => exact ⟨"brand", by simp [runAgg, processRecord, hb2]⟩
        | some b => exact ⟨"rating", by simp [runAgg, processRecord, hb2, hra]⟩
    · cases hp : processRecord st r with
      | ok st2 =>
        obtain ⟨k, hk⟩ := ih st2 ⟨q, hq2, hcase⟩
        exact ⟨k, by simp [runAgg, hp, hk]⟩
      | error e =>
        obtain ⟨k, hk⟩ := processRecord_error_key hp
        exact ⟨k, by simp [runAgg, hp, hk]⟩

/- ----------------------------------------------------------------- -/
/- The claims.                                                       -/
/- ----------------------------------------------------------------- -/

/-- C1: for every record sequence whose records carry the name, brand
and rating fields, every (brand, average_rating) pair in the output of
calculate_average_rating has average_rating equal to the arithmetic mean
of exactly the successfully parsed rating values of the records bearing
that brand: the sum of the parsed values divided by their count, and no
other value. -/
theorem C1_average_is_mean (records : List Record)
    (hwf : ∀ r ∈ records, WFrec r) (out : List (String × PyFloat))
    (warns : List String)
    (h : calculate_average_rating records = .ok (out, warns))
    (b : String) (v : PyFloat) (hmem : (b, v) ∈ out) :
    v = (sumPF (parsedRatingsOf records b)).divNat
      (parsedRatingsOf records b).length := by
  obtain ⟨ho, _⟩ := calc_ok_inv hwf h
  subst ho
  have hmem2 : (b, v) ∈ specAvgs records :=
    (sortDesc_perm (specAvgs records)).mem_iff.mp hmem
  exact (mem_specAvgs hmem2).2

/-- C1 witness: the repository test data set, at brand apple, whose
average (4.5 + 4.9) / 2 is the fraction 940 / 200. -/
theorem C1_average_is_mean_witness :
    PyFloat.finite ⟨940, 199⟩ =
      (sumPF (parsedRatingsOf recsC1 "apple")).divNat
        (parsedRatingsOf recsC1 "apple").length :=
  C1_average_is_mean recsC1 (by decide)
    [("apple", PyFloat.finite ⟨940, 199⟩), ("samsung", PyFloat.finite ⟨47, 9⟩)]
    [] (by decide) "apple" (PyFloat.finite ⟨940, 199⟩) (by decide)

/-- C2 counterexample: the claim quantifies over every record sequence,
but a rating string nan parses successfully to NaN, every comparison
with NaN is false, and CPython sorting leaves the NaN-averaged brand in
front, so the output of calculate_average_rating on these records is not
sorted by the adjacent greater-or-equal test the claim states. -/
theorem C2_counterexample :
    calculate_average_rating nanRecords =
      .ok ([("b", PyFloat.finite ⟨50, 9⟩), ("a", PyFloat.nan)], []) ∧
    sortedDescBool [("b", PyFloat.finite ⟨50, 9⟩), ("a", PyFloat.nan)] = false :=
  ⟨by decide, by decide⟩

/-- C2 (amended): for every record sequence whose records carry the
three fields and whose output averages are all non-NaN, the output of
calculate_average_rating is sorted by average descending under the
adjacent greater-or-equal test, and ties keep the first-encountered
insertion order of the brands: for every value v, the output entries
whose average equals v are exactly the entries of the first-encounter
(brand, mean) list specAvgs with that value, in the same order. -/
theorem C2_sorted_desc (records : List Record)
    (hwf : ∀ r ∈ records, WFrec r) (out : List (String × PyFloat))
    (warns : List String)
    (h : calculate_average_rating records = .ok (out, warns))
    (hnan : ∀ p ∈ out, p.2 ≠ PyFloat.nan) :
    sortedDescBool out = true ∧
    ∀ v, out.filter (fun p => PyFloat.eqv p.2 v) =
      (specAvgs records).filter (fun p => PyFloat.eqv p.2 v) := by
  obtain ⟨ho, _⟩ := calc_ok_inv hwf h
  subst ho
  have hnan2 : ∀ p ∈ specAvgs records, p.2 ≠ PyFloat.nan := fun p hp =>
    hnan p ((sortDesc_perm (specAvgs records)).mem_iff.mpr hp)
  exact ⟨pairwise_sortedDescBool (sortDesc_pairwise hnan2),
    fun v => sortDesc_filter hnan2 v⟩

/-- C2 witness: averages 3.0, 5.0, 4.0 are reported in descending
order. -/
theorem C2_sorted_desc_witness :
    sortedDescBool [("b", PyFloat.finite ⟨50, 9⟩), ("c", PyFloat.finite ⟨40, 9⟩),
      ("a", PyFloat.finite ⟨30, 9⟩)] = true :=
  (C2_sorted_desc recsC2 (by decide)
    [("b", PyFloat.finite ⟨50, 9⟩), ("c", PyFloat.finite ⟨40, 9⟩),
      ("a", PyFloat.finite ⟨30, 9⟩)]
    [] (by decide) (by decide)).1

/-- C3: a record whose rating fails numeric parsing does not make
calculate_average_rating fail: the run succeeds, the warning naming the
raw value, the product name and the brand is emitted, and the output is
the one obtained with that record absent, so the record is excluded from
both the sum and the count of its brand and every other record is
aggregated normally. -/
theorem C3_skip_and_warn (records : List Record)
    (hwf : ∀ r ∈ records, WFrec r) (i : ℕ) (hi : i < records.length)
    (b nm raw : String)
    (hb : rlookup (records.get ⟨i, hi⟩) "brand" = some b)
    (hnm : rlookup (records.get ⟨i, hi⟩) "name" = some nm)
    (hraw : rlookup (records.get ⟨i, hi⟩) "rating" = some raw)
    (hbad : pyFloatParse raw = none) :
    ∃ out warns warns2,
      calculate_average_rating records = .ok (out, warns) ∧
      warnMsg raw nm b ∈ warns ∧
      calculate_average_rating (records.eraseIdx i) = .ok (out, warns2) := by
  have hwf2 : ∀ r ∈ records.eraseIdx i, WFrec r := fun r hr =>
    hwf r ((records.eraseIdx_sublist i).subset hr)
  have hbg : rlookup records[i] "brand" = some b := hb
  have hng : rlookup records[i] "name" = some nm := hnm
  have hrg : rlookup records[i] "rating" = some raw := hraw
  have hpn : parsedOf (records.get ⟨i, hi⟩) = none := by
    simp [parsedOf, hbg, hrg, hbad]
  have hpp : parsedPairs (records.eraseIdx i) = parsedPairs records := by
    rw [List.eraseIdx_eq_take_drop_succ]
    conv_rhs => rw [records_decomp records i hi]
    rw [parsedPairs_append, parsedPairs_append, parsedPairs_cons_none _ hpn]
  have hsv : specAvgs (records.eraseIdx i) = specAvgs records :=
    specAvgs_congr hpp
  have hwm : warnMsg raw nm b ∈ specWarns records := by
    apply List.mem_filterMap.mpr
    refine ⟨records.get ⟨i, hi⟩, List.get_mem records i hi, ?_⟩
    simp [hbg, hrg, hng, hbad]
  exact ⟨sortDesc (specAvgs records), specWarns records,
    specWarns (records.eraseIdx i), calc_spec hwf, hwm, by
      rw [calc_spec hwf2, hsv]⟩

/-- C3 witness: the test data set with rating invalid on the first
record. -/
theorem C3_skip_and_warn_witness :
    ∃ out warns warns2,
      calculate_average_rating recsC3 = .ok (out, warns) ∧
      warnMsg "invalid" "p1" "apple" ∈ warns ∧
      calculate_average_rating (recsC3.eraseIdx 0) = .ok (out, warns2) :=
  C3_skip_and_warn recsC3 (by decide) 0 (by decide) "apple" "p1" "invalid"
    (by decide) (by decide) (by decide) (by decide)

/-- C4: generate_report raises the dedicated ValueError (distinguishable
from the KeyError of record lookups and from the fatal file errors) and
returns no table for every report type other than average-rating, and
succeeds on average-rating. -/
theorem C4_report_type_check (rt : String) (data : List (String × PyFloat)) :
    (rt ≠ "average-rating" →
      generate_report rt data =
        .error (PyErr.valueError ("Неподдерживаемый тип отчёта: " ++ rt))) ∧
    (rt = "average-rating" → ∃ rep, generate_report rt data = .ok rep) := by
  constructor
  · intro h
    simp [generate_report, h]
  · intro h
    subst h
    exact ⟨⟨["Brand", "Rating"], data.map (fun p => [p.1, formatFixed1 p.2])⟩,
      by simp [generate_report]⟩

/-- C4 witness: the report type invalid fails with the ValueError and
the supported type succeeds. -/
theorem C4_report_type_check_witness :
    generate_report "invalid" [] =
      .error (PyErr.valueError ("Неподдерживаемый тип отчёта: " ++ "invalid")) ∧
    ∃ rep, generate_report "average-rating" [] = .ok rep :=
  ⟨(C4_report_type_check "invalid" []).1 (by decide),
    (C4_report_type_check "average-rating" []).2 rfl⟩

/-- C5: when the file at position i is missing and every earlier file is
readable, read_csv_files opens exactly the earlier files, emits the
error message naming the missing path, and exits the process with
status 1 without returning any record list and without reading any
later file. -/
theorem C5_missing_file_fatal (fs : String → FileOutcome)
    (paths : List String) :
    ∀ (i : ℕ) (hi : i < paths.length),
      fs (paths.get ⟨i, hi⟩) = FileOutcome.missing →
      (∀ j (hj : j < i), ∃ recs,
        fs (paths.get ⟨j, Nat.lt_trans hj hi⟩) = FileOutcome.rows recs) →
      read_csv_files fs paths =
        (paths.take i, .error ⟨fileErrMsg (paths.get ⟨i, hi⟩), 1⟩) := by
  induction paths with
  | nil =>
    intro i hi
    exact absurd hi (by simp)
  | cons p ps ih =>
    intro i hi hmiss hpre
    cases i with
    | zero =>
      simp only [List.get] at hmiss
      simp [read_csv_files, hmiss]
    | succ n =>
      obtain ⟨recs, hp⟩ := hpre 0 (Nat.succ_pos n)
      have hi2 : n < ps.length := by simpa using hi
      have hmiss2 : fs (ps.get ⟨n, hi2⟩) = FileOutcome.missing := hmiss
      have hpre2 : ∀ j (hj : j < n), ∃ r2,
          fs (ps.get ⟨j, Nat.lt_trans hj hi2⟩) = FileOutcome.rows r2 :=
        fun j hj => hpre (j + 1) (Nat.succ_lt_succ hj)
      have hrec := ih n hi2 hmiss2 hpre2
      simp only [List.get] at hp ⊢
      simp [read_csv_files, hp, hrec]

/-- C5 witness: with only a.csv readable, the path list a.csv, b.csv,
c.csv opens a.csv alone and dies on b.csv with status 1. -/
theorem C5_missing_file_fatal_witness :
    read_csv_files fsW ["a.csv", "b.csv", "c.csv"] =
      (["a.csv"], .error ⟨fileErrMsg "b.csv", 1⟩) :=
  C5_missing_file_fatal fsW ["a.csv", "b.csv", "c.csv"] 1 (by decide) rfl
    (fun j hj =>
      match j, hj with
      | 0, _ => ⟨[], rfl⟩
      | n + 1, hj => absurd hj (by omega))

/-- C6: for every record sequence with the three fields present, every
brand appears at most once in the output of calculate_average_rating,
every brand that appears has at least one successfully parsed rating
(so its count divisor is positive and the division is never by zero),
and a brand all of whose records have unparsable ratings never
appears. -/
theorem C6_unique_brands_positive_counts (records : List Record)
    (hwf : ∀ r ∈ records, WFrec r) (out : List (String × PyFloat))
    (warns : List String)
    (h : calculate_average_rating records = .ok (out, warns)) :
    (out.map Prod.fst).Nodup ∧
    (∀ p ∈ out, 0 < (parsedRatingsOf records p.1).length) ∧
    (∀ b : String, parsedRatingsOf records b = [] → b ∉ out.map Prod.fst) := by
  obtain ⟨ho, _⟩ := calc_ok_inv hwf h
  subst ho
  have hpm := sortDesc_perm (specAvgs records)
  have hkeys : ((sortDesc (specAvgs records)).map Prod.fst).Nodup := by
    rw [(hpm.map Prod.fst).nodup_iff, specAvgs_keys]
    exact firstOcc_nodup _
  refine ⟨hkeys, ?_, ?_⟩
  · intro p hp
    have hp2 : (p.1, p.2) ∈ specAvgs records := by
      simpa using hpm.mem_iff.mp hp
    have hbo := (mem_specAvgs hp2).1
    have hseq : p.1 ∈ parsedBrandSeq records := (firstOcc_mem _ _).mp hbo
    have hne : parsedRatingsOf records p.1 ≠ [] := by
      intro hc
      exact ((parsedRatingsOf_nil_iff records p.1).mp hc) hseq
    exact List.length_pos.mpr hne
  · intro b hnil hmem
    have hb2 : b ∈ (specAvgs records).map Prod.fst :=
      (hpm.map Prod.fst).mem_iff.mp hmem
    rw [specAvgs_keys] at hb2
    exact ((parsedRatingsOf_nil_iff records b).mp hnil)
      ((firstOcc_mem _ _).mp hb2)

/-- C6 witness: the brand zzz, whose only rating is unparsable, is
absent; apple appears once with one parsed rating. -/
theorem C6_unique_brands_positive_counts_witness :
    (([("apple", PyFloat.finite ⟨49, 9⟩)].map Prod.fst).Nodup) ∧
    (∀ p ∈ [("apple", PyFloat.finite ⟨49, 9⟩)],
      0 < (parsedRatingsOf recsC6 p.1).length) ∧
    (∀ b : String, parsedRatingsOf recsC6 b = [] →
      b ∉ [("apple", PyFloat.finite ⟨49, 9⟩)].map Prod.fst) :=
  C6_unique_brands_positive_counts recsC6 (by decide)
    [("apple", PyFloat.finite ⟨49, 9⟩)]
    [warnMsg "invalid" "p1" "apple", warnMsg "invalid" "p3" "zzz"]
    (by decide)

/-- C7: brand keys are matched by exact case-sensitive string equality:
when both spellings Apple and apple occur with a parsable rating, the
output contains exactly one entry for each spelling, each carrying the
mean of exactly its own records. -/
theorem C7_case_sensitive_brands (records : List Record)
    (hwf : ∀ r ∈ records, WFrec r) (out : List (String × PyFloat))
    (warns : List String)
    (h : calculate_average_rating records = .ok (out, warns))
    (hA : "Apple" ∈ parsedBrandSeq records)
    (ha : "apple" ∈ parsedBrandSeq records) :
    out.filter (fun p => p.1 == "Apple") =
      [("Apple", meanOf records "Apple")] ∧
    out.filter (fun p => p.1 == "apple") =
      [("apple", meanOf records "apple")] := by
  obtain ⟨ho, _⟩ := calc_ok_inv hwf h
  subst ho
  have hpm := sortDesc_perm (specAvgs records)
  have hkeys : ((sortDesc (specAvgs records)).map Prod.fst).Nodup := by
    rw [(hpm.map Prod.fst).nodup_iff, specAvgs_keys]
    exact firstOcc_nodup _
  have hmemA : ("Apple", meanOf records "Apple") ∈
      sortDesc (specAvgs records) :=
    hpm.mem_iff.mpr
      (List.mem_map.mpr ⟨"Apple", (firstOcc_mem _ _).mpr hA, rfl⟩)
  have hmema : ("apple", meanOf records "apple") ∈
      sortDesc (specAvgs records) :=
    hpm.mem_iff.mpr
      (List.mem_map.mpr ⟨"apple", (firstOcc_mem _ _).mpr ha, rfl⟩)
  exact ⟨filter_key_of_nodup hkeys hmemA, filter_key_of_nodup hkeys hmema⟩

/-- C7 witness: records with brands Apple (4.5) and apple (4.9) yield
two independent entries. -/
theorem C7_case_sensitive_brands_witness :
    ([("apple", PyFloat.finite ⟨49, 9⟩), ("Apple", PyFloat.finite ⟨45, 9⟩)].filter
        (fun p => p.1 == "Apple") = [("Apple", meanOf recsC7 "Apple")]) ∧
    ([("apple", PyFloat.finite ⟨49, 9⟩), ("Apple", PyFloat.finite ⟨45, 9⟩)].filter
        (fun p => p.1 == "apple") = [("apple", meanOf recsC7 "apple")]) :=
  C7_case_sensitive_brands recsC7 (by decide)
    [("apple", PyFloat.finite ⟨49, 9⟩), ("Apple", PyFloat.finite ⟨45, 9⟩)]
    [] (by decide) (by decide) (by decide)

/-- C8: the empty record sequence is not an error: the aggregation
returns the empty output with no warnings, and the report for it renders
the header row with zero data rows. -/
theorem C8_empty_sequence :
    calculate_average_rating [] = .ok ([], []) ∧
    generate_report "average-rating" [] = .ok ⟨["Brand", "Rating"], []⟩ :=
  ⟨by decide, by decide⟩

/-- C9: rating parsing is the full float conversion, not only plain
decimal literals: the strings inf, nan, 1e2 and a whitespace-padded
numeral all parse successfully, and records carrying them contribute to
their brand's sum and count (no warning, averages as computed). -/
theorem C9_full_float_grammar :
    pyFloatParse "inf" = some PyFloat.inf ∧
    pyFloatParse "nan" = some PyFloat.nan ∧
    pyFloatParse "1e2" = some (PyFloat.finite ⟨100, 0⟩) ∧
    pyFloatParse " 4.5 " = some (PyFloat.finite ⟨45, 9⟩) ∧
    calculate_average_rating
        [[("name", "p1"), ("brand", "b"), ("rating", "1e2")],
         [("name", "p2"), ("brand", "b"), ("rating", "300")]] =
      .ok ([("b", PyFloat.finite ⟨400, 1⟩)], []) ∧
    calculate_average_rating [[("name", "p1"), ("brand", "b"), ("rating", "inf")]] =
      .ok ([("b", PyFloat.inf)], []) ∧
    calculate_average_rating [[("name", "p1"), ("brand", "b"), ("rating", "nan")]] =
      .ok ([("b", PyFloat.nan)], []) ∧
    calculate_average_rating [[("name", "p1"), ("brand", "b"), ("rating", " 4.5 ")]] =
      .ok ([("b", PyFloat.finite ⟨45, 9⟩)], []) :=
  ⟨by decide, by decide, by decide, by decide, by decide, by decide,
    by decide, by decide⟩

/-- C10: the skip-and-warn policy covers only present-but-unparsable
ratings: a record sequence containing a record without a brand or
without a rating field makes calculate_average_rating fail with an
uncaught KeyError instead of skipping the record. -/
theorem C10_missing_field_key_error (records : List Record)
    (h : ∃ r ∈ records,
      rlookup r "brand" = none ∨ rlookup r "rating" = none) :
    ∃ k, calculate_average_rating records = .error (PyErr.keyError k) := by
  obtain ⟨k, hk⟩ := runAgg_key_error records ⟨[], []⟩ h
  exact ⟨k, by simp [calculate_average_rating, hk]⟩

/-- C10 witness: a record with only a name field. -/
theorem C10_missing_field_key_error_witness :
    ∃ k, calculate_average_rating [[("name", "p")]] =
      .error (PyErr.keyError k) :=
  C10_missing_field_key_error [[("name", "p")]]
    ⟨[("name", "p")], List.mem_singleton.mpr rfl, Or.inl (by decide)⟩
